import Mathlib

/-!
Shallow embedding of `src/Stabilization.cpp`, a simulation of a probabilistic
self-stabilizing fault-containment protocol on a line of nodes.

The C++ `Node` holds `int primary`, `int secondary` and raw `left`/`right`
neighbor pointers into the `member` array owned by `System`.  We model a node
with `Int` fields and neighbor pointers as `Option Nat` indices into the list
of nodes (`none` = `NULL`).  A pointer value `some j` with `j` out of range
models a dangling pointer (such as `&member[1]` when `SYSTEM_SIZE == 1`);
dereferencing it yields `none`, so every operation that could dereference an
invalid pointer is `Option`-valued, with `none` marking undefined behavior.

The random scheduler (`SelectNode`, `rand() % SYSTEM_SIZE`) is modelled by
passing the selected index explicitly; `Stabilize` is run against an explicit
finite schedule of selected indices.
-/

namespace Stabilization

/-- Margin constant of the stabilization algorithm: `const int M = 20;`. -/
def M : Int := 20

/-- One node of the system: primary and secondary variables plus the left and
right neighbor pointers (as optional indices into the node array). -/
structure Node where
  primary : Int
  secondary : Int
  left : Option Nat
  right : Option Nat
deriving DecidableEq, Repr

/-- Default constructor `Node::Node()`: primary 0, secondary 5, both neighbor pointers `NULL`. -/
def Node.init : Node :=
  { primary := 0, secondary := 5, left := none, right := none }

/-- Translation of `Node::Equal`: compares the primary variables of two nodes. -/
def Node.Equal (a b : Node) : Bool :=
  a.primary == b.primary

/-- Translation of `Node::Update()`: flips the primary value between 0 and 1. -/
def Node.Update (n : Node) : Node :=
  if n.primary = 0 then { n with primary := 1 } else { n with primary := 0 }

/-- Body of the constructor loop `System::System` for index `i` of a system of
size `n`: the first node gets only a right pointer (unconditionally, even when
`n = 1`, where `&member[i+1]` is one past the end), the last only a left
pointer, interior nodes both. -/
def mkNode (n i : Nat) : Node :=
  if i = 0 then { Node.init with right := some (i + 1) }
  else if i = n - 1 then { Node.init with left := some (i - 1) }
  else { Node.init with left := some (i - 1), right := some (i + 1) }

/-- Translation of the constructor `System::System(n)`: the `member` array after
construction.  The C++ constructor performs no size validation and has no
failure result. -/
def mkSystem (n : Nat) : List Node :=
  (List.range n).map (mkNode n)

/-- Dereference a neighbor pointer: `none` for `NULL` or for a dangling
index (undefined behavior in the C++). -/
def deref (s : List Node) (p : Option Nat) : Option Node :=
  match p with
  | none => none
  | some j => s[j]?

/-- Translation of `System::LegalConfig()`: true iff `member[0].Equal(member[i])`
for every `i` in `[1, SYSTEM_SIZE)`. -/
def LegalConfig (s : List Node) : Bool :=
  match s with
  | [] => true
  | m0 :: rest => rest.all fun m => m0.Equal m

/-- Translation of `System::TransientFault()` with the scheduler choice `i` made
explicit: `node = &member[i]; node->Update();`. -/
def TransientFault (s : List Node) (i : Nat) : Option (List Node) :=
  match s[i]? with
  | none => none
  | some nd => some (s.set i nd.Update)

/-- Translation of `System::CheckUnequal()` for current node `i`: returns the
C++ return value together with the updated node array, or `none` on an invalid
pointer dereference (and in the unreachable fall-off-the-end case). -/
def CheckUnequal (s : List Node) (i : Nat) : Option (Bool × List Node) :=
  match s[i]? with
  | none => none
  | some nd =>
    if nd.left.isSome && nd.right.isSome then
      match deref s nd.left, deref s nd.right with
      | some ln, some rn =>
        if nd.primary != ln.primary && nd.primary != rn.primary then
          some (true, s.set i nd.Update)
        else if nd.primary == ln.primary && nd.primary == rn.primary then
          some (true, s)
        else
          some (false, s)
      | _, _ => none
    else if nd.left.isNone then
      match deref s nd.right with
      | some rn =>
        if nd.primary != rn.primary then
          some (true, s.set i nd.Update)
        else if nd.primary == rn.primary then
          some (true, s)
        else
          some (false, s)
      | none => none
    else if nd.right.isNone then
      match deref s nd.left with
      | some ln =>
        if nd.primary != ln.primary then
          some (true, s.set i nd.Update)
        else if nd.primary == ln.primary then
          some (true, s)
        else
          some (false, s)
      | none => none
    else
      none

/-- Translation of `System::isLeader()` for current node `i`. -/
def isLeader (s : List Node) (i : Nat) : Option Bool :=
  match s[i]? with
  | none => none
  | some nd =>
    if nd.left.isNone then
      match deref s nd.right with
      | none => none
      | some rn => if nd.secondary < rn.secondary then some false else some true
    else if nd.right.isNone then
      match deref s nd.left with
      | none => none
      | some ln => if nd.secondary < ln.secondary then some false else some true
    else
      match deref s nd.left, deref s nd.right with
      | some ln, some rn =>
        if nd.secondary < ln.secondary ∨ nd.secondary < rn.secondary then some false
        else some true
      | _, _ => none

/-- Translation of `System::Max()` for current node `i`: the greater secondary
value among the existing neighbors. -/
def Max (s : List Node) (i : Nat) : Option Int :=
  match s[i]? with
  | none => none
  | some nd =>
    if nd.left.isNone then (deref s nd.right).map Node.secondary
    else if nd.right.isNone then (deref s nd.left).map Node.secondary
    else
      match deref s nd.left, deref s nd.right with
      | some ln, some rn =>
        if rn.secondary > ln.secondary then some rn.secondary else some ln.secondary
      | _, _ => none

/-- Translation of `System::CheckConditions()` for current node `i`.  In the
leader branch the C++ first calls `node->Update()` and only then evaluates
`Max()`, so `Max` is computed on the updated array. -/
def CheckConditions (s : List Node) (i : Nat) : Option (List Node) :=
  match isLeader s i with
  | none => none
  | some true =>
    match s[i]? with
    | none => none
    | some nd =>
      let s1 := s.set i nd.Update
      match Max s1 i with
      | none => none
      | some mx =>
        some (s1.set i { nd.Update with secondary := nd.Update.secondary + (mx + M) })
  | some false =>
    match s[i]? with
    | none => none
    | some nd => some (s.set i { nd with secondary := nd.secondary + 1 })

/-- One iteration of the body of the `while` loop in `System::Stabilize` with
the scheduler choice `i` made explicit:
`if (!CheckUnequal()) CheckConditions();`. -/
def StabilizeStep (s : List Node) (i : Nat) : Option (List Node) :=
  match CheckUnequal s i with
  | none => none
  | some (b, s1) => if b then some s1 else CheckConditions s1 i

/-- Translation of `System::Stabilize()` against an explicit finite schedule of
selected indices.  Returns the final node array and the number of loop iterations
executed; `none` if the schedule is exhausted before legality, or if an
iteration hits undefined behavior. -/
def StabilizeRun (s : List Node) : List Nat → Option (List Node × Nat)
  | [] => if LegalConfig s then some (s, 0) else none
  | i :: rest =>
    if LegalConfig s then some (s, 0)
    else
      match StabilizeStep s i with
      | none => none
      | some s1 =>
        match StabilizeRun s1 rest with
        | none => none
        | some (sf, k) => some (sf, k + 1)

/-- One observable state transition of the simulated system: a transient
fault at some scheduled index, or one iteration of the stabilization loop
(which the loop guard only runs while the configuration is not legal). -/
inductive Step : List Node → List Node → Prop
  | fault (s s' : List Node) (i : Nat) :
      TransientFault s i = some s' → Step s s'
  | stab (s s' : List Node) (i : Nat) :
      LegalConfig s = false → StabilizeStep s i = some s' → Step s s'

/-- States reachable from the freshly constructed system of size `n` by any
sequence of transient faults and stabilization-loop iterations. -/
inductive Reachable (n : Nat) : List Node → Prop
  | init : Reachable n (mkSystem n)
  | step (s s' : List Node) : Reachable n s → Step s s' → Reachable n s'

/-! Basic facts about the node operations. -/

theorem Node.Update_secondary (n : Node) : n.Update.secondary = n.secondary := by
  unfold Node.Update; split <;> rfl

theorem Node.Update_left (n : Node) : n.Update.left = n.left := by
  unfold Node.Update; split <;> rfl

theorem Node.Update_right (n : Node) : n.Update.right = n.right := by
  unfold Node.Update; split <;> rfl

theorem Node.Update_primary (n : Node) :
    n.Update.primary = if n.primary = 0 then 1 else 0 := by
  unfold Node.Update; split <;> simp_all

theorem idx_lt_of_getElem? {s : List Node} {i : Nat} {nd : Node}
    (h : s[i]? = some nd) : i < s.length :=
  (List.getElem?_eq_some.mp h).1

theorem getElem?_set_update_sec {s : List Node} {i : Nat} {nd : Node}
    (hnd : s[i]? = some nd) (j : Nat) :
    ((s.set i nd.Update)[j]?).map Node.secondary = (s[j]?).map Node.secondary := by
  by_cases hij : i = j
  · subst hij
    rw [List.getElem?_set_eq_of_lt _ (idx_lt_of_getElem? hnd), hnd]
    simp [Node.Update_secondary]
  · rw [List.getElem?_set_ne hij]

/-- Concrete three-node state with primaries `[0, 1, 0]` (all secondaries at
the baseline 5), as produced by corrupting node 1 of a fresh 3-node system. -/
def exState3 : List Node :=
  [{ primary := 0, secondary := 5, left := none, right := some 1 },
   { primary := 1, secondary := 5, left := some 0, right := some 2 },
   { primary := 0, secondary := 5, left := some 1, right := none }]

/-- The state `exState3` after the all-disagree flip of node 1. -/
def exState3Fixed : List Node :=
  [{ primary := 0, secondary := 5, left := none, right := some 1 },
   { primary := 0, secondary := 5, left := some 0, right := some 2 },
   { primary := 0, secondary := 5, left := some 1, right := none }]

/-- Concrete four-node state with primaries `[0, 0, 1, 1]` (all secondaries at
the baseline 5). -/
def exState4 : List Node :=
  [{ primary := 0, secondary := 5, left := none, right := some 1 },
   { primary := 0, secondary := 5, left := some 0, right := some 2 },
   { primary := 1, secondary := 5, left := some 1, right := some 3 },
   { primary := 1, secondary := 5, left := some 2, right := none }]

/-- C2: claim that constructing a topology with `N = 1` produces a single node
with no left and no right neighbor and no out-of-range reference.  The code
violates this: the constructor unconditionally runs the `i == 0` branch, which
stores `&member[1]` — one past the end of the one-element array — as the right
neighbor pointer, so the single node does have a (dangling) right neighbor.
This theorem evaluates the embedded constructor at the failing input `N = 1`:
the node produced carries `right = some 1`, and index 1 is out of range. -/
theorem C2_theorem :
    mkSystem 1 = [{ primary := 0, secondary := 5, left := none, right := some 1 }] ∧
    ((mkSystem 1)[0]?).map Node.right = some (some 1) ∧
    deref (mkSystem 1) (some 1) = none := by
  refine ⟨by decide, by decide, by decide⟩

/-- C3: claim that topology construction with `N < 1` fails with an
`InvalidSize` error and produces no partial topology.  The code contains no
size validation at all and no error path: the constructor is total.  This
theorem evaluates the embedded constructor at the failing input `N = 0`:
construction succeeds and yields a zero-node topology instead of failing. -/
theorem C3_theorem : mkSystem 0 = [] ∧ (mkSystem 0).length = 0 := by
  refine ⟨by decide, by decide⟩

/-- C4: golden scenario.  For `N = 3` with primaries `[0, 1, 0]` and all
secondaries at the baseline 5, applying the rule engine once to node index 1
takes the all-disagree branch (`CheckUnequal` returns true and flips node 1,
whose primary changes from 1 to 0), yields primaries `[0, 0, 0]`, and the
convergence check then returns true. -/
theorem C4_theorem :
    CheckUnequal exState3 1 = some (true, exState3Fixed) ∧
    StabilizeStep exState3 1 = some exState3Fixed ∧
    (exState3[1]?).map Node.primary = some 1 ∧
    (exState3Fixed[1]?).map Node.primary = some 0 ∧
    exState3Fixed.map Node.primary = [0, 0, 0] ∧
    LegalConfig exState3 = false ∧
    LegalConfig exState3Fixed = true := by
  refine ⟨by decide, by decide, by decide, by decide, by decide, by decide, by decide⟩

/-- Projection of the legality check onto the list of primary values (proof
helper, showing the check reads nothing but primaries). -/
def LegalP : List Int → Bool
  | [] => true
  | p :: ps => ps.all fun q => p == q

theorem LegalConfig_eq_LegalP (s : List Node) :
    LegalConfig s = LegalP (s.map Node.primary) := by
  cases s with
  | nil => rfl
  | cons m0 rest =>
    show (rest.all fun m => m0.primary == m.primary)
        = (rest.map Node.primary).all fun q => m0.primary == q
    induction rest with
    | nil => rfl
    | cons x xs ih => simp only [List.all_cons, List.map_cons, ih]

/-- C5: for every topology state, the convergence check `LegalConfig` returns
true iff every node primary equals the primary of node 0; it is a function of
the primaries alone (so it inspects no secondary value), and it returns true
for every one-node state.  It is a pure function of the state, so it mutates
nothing. -/
theorem C5_theorem (s : List Node) :
    (LegalConfig s = true ↔
      ∀ (j : Nat) (a b : Node), s[0]? = some b → s[j]? = some a → a.primary = b.primary) ∧
    (∀ t : List Node, s.map Node.primary = t.map Node.primary →
      LegalConfig s = LegalConfig t) ∧
    (s.length = 1 → LegalConfig s = true) := by
  refine ⟨?_, ?_, ?_⟩
  · cases s with
    | nil => simp [LegalConfig]
    | cons m0 rest =>
      simp only [LegalConfig, List.all_eq_true, Node.Equal, beq_iff_eq]
      constructor
      · intro h j a b hb ha
        rw [List.getElem?_cons_zero] at hb
        obtain rfl : m0 = b := by injection hb
        cases j with
        | zero =>
          rw [List.getElem?_cons_zero] at ha
          obtain rfl : m0 = a := by injection ha
          rfl
        | succ j =>
          rw [List.getElem?_cons_succ] at ha
          have ham : a ∈ rest := by
            obtain ⟨hj, he⟩ := List.getElem?_eq_some.mp ha
            exact he ▸ List.getElem_mem hj
          exact (h a ham).symm
      · intro h m hm
        obtain ⟨j, hj, he⟩ := List.getElem_of_mem hm
        have hj2 : (m0 :: rest)[j + 1]? = some m := by
          rw [List.getElem?_cons_succ]
          simp [List.getElem?_eq_getElem hj, he]
        exact (h (j + 1) m m0 List.getElem?_cons_zero hj2).symm
  · intro t h
    rw [LegalConfig_eq_LegalP, LegalConfig_eq_LegalP, h]
  · intro h
    cases s with
    | nil => simp at h
    | cons a t =>
      cases t with
      | nil => rfl
      | cons b u => simp at h

/-- Witness for C5: its one-node part applied to a concrete single-node state
whose secondary is not the baseline. -/
theorem C5_witness :
    LegalConfig [{ primary := 0, secondary := 7, left := none, right := none }] = true :=
  (C5_theorem _).2.2 (by decide)

/-! Mixed-case lemmas: a node with two existing neighbors of which exactly one
agrees makes `CheckUnequal` return false, so `Stabilize` calls
`CheckConditions` on it. -/

theorem CheckUnequal_mixed {s : List Node} {i l r : Nat} {nd ln rn : Node}
    (hnd : s[i]? = some nd) (hl : nd.left = some l) (hr : nd.right = some r)
    (hln : s[l]? = some ln) (hrn : s[r]? = some rn)
    (hmix : (nd.primary = ln.primary ∧ nd.primary ≠ rn.primary) ∨
            (nd.primary ≠ ln.primary ∧ nd.primary = rn.primary)) :
    CheckUnequal s i = some (false, s) := by
  have hc1 : (nd.primary != ln.primary && nd.primary != rn.primary) = false := by
    rcases hmix with ⟨h1, h2⟩ | ⟨h1, h2⟩ <;> simp [h1, h2]
  have hc2 : (nd.primary == ln.primary && nd.primary == rn.primary) = false := by
    rcases hmix with ⟨h1, h2⟩ | ⟨h1, h2⟩ <;> simp [h1, h2] <;> omega
  simp [CheckUnequal, deref, hnd, hl, hr, hln, hrn, hc1, hc2]

theorem isLeader_two_true {s : List Node} {i l r : Nat} {nd ln rn : Node}
    (hnd : s[i]? = some nd) (hl : nd.left = some l) (hr : nd.right = some r)
    (hln : s[l]? = some ln) (hrn : s[r]? = some rn)
    (hld1 : ln.secondary ≤ nd.secondary) (hld2 : rn.secondary ≤ nd.secondary) :
    isLeader s i = some true := by
  simp [isLeader, deref, hnd, hl, hr, hln, hrn]
  omega

theorem isLeader_two_false {s : List Node} {i l r : Nat} {nd ln rn : Node}
    (hnd : s[i]? = some nd) (hl : nd.left = some l) (hr : nd.right = some r)
    (hln : s[l]? = some ln) (hrn : s[r]? = some rn)
    (hnl : nd.secondary < ln.secondary ∨ nd.secondary < rn.secondary) :
    isLeader s i = some false := by
  simp [isLeader, deref, hnd, hl, hr, hln, hrn]
  omega

theorem Max_two {s : List Node} {i l r : Nat} {nd ln rn : Node}
    (hnd : s[i]? = some nd) (hl : nd.left = some l) (hr : nd.right = some r)
    (hln : s[l]? = some ln) (hrn : s[r]? = some rn) :
    Max s i = some (max ln.secondary rn.secondary) := by
  simp only [Max, deref, hnd, hl, hr, hln, hrn, Option.isNone_some]
  simp only [Bool.false_eq_true, if_false]
  split
  · next h => rw [max_eq_right (le_of_lt h)]
  · next h => rw [max_eq_left (not_lt.mp h)]

/-- C1 (amended): in the mixed case with the selected node the local leader,
one stabilization iteration flips the node primary (`Node.Update`) and sets
the node secondary to its OLD value PLUS `max(neighbor secondaries) + M`
(`node->secondary += (Max() + M)` in the code), not to `max + M` alone. -/
theorem C1_theorem {s : List Node} {i l r : Nat} {nd ln rn : Node}
    (hnd : s[i]? = some nd) (hl : nd.left = some l) (hr : nd.right = some r)
    (hli : l ≠ i) (hri : r ≠ i)
    (hln : s[l]? = some ln) (hrn : s[r]? = some rn)
    (hmix : (nd.primary = ln.primary ∧ nd.primary ≠ rn.primary) ∨
            (nd.primary ≠ ln.primary ∧ nd.primary = rn.primary))
    (hld1 : ln.secondary ≤ nd.secondary) (hld2 : rn.secondary ≤ nd.secondary) :
    StabilizeStep s i =
      some (s.set i
        { nd.Update with secondary := nd.secondary + (max ln.secondary rn.secondary + M) }) := by
  have hcu := CheckUnequal_mixed hnd hl hr hln hrn hmix
  have hlen := idx_lt_of_getElem? hnd
  have hnd1 : (s.set i nd.Update)[i]? = some nd.Update :=
    List.getElem?_set_eq_of_lt _ hlen
  have hl1 : nd.Update.left = some l := by rw [Node.Update_left, hl]
  have hr1 : nd.Update.right = some r := by rw [Node.Update_right, hr]
  have hln1 : (s.set i nd.Update)[l]? = some ln := by
    rw [List.getElem?_set_ne (Ne.symm hli), hln]
  have hrn1 : (s.set i nd.Update)[r]? = some rn := by
    rw [List.getElem?_set_ne (Ne.symm hri), hrn]
  have hld := isLeader_two_true hnd hl hr hln hrn hld1 hld2
  have hmax := Max_two hnd1 hl1 hr1 hln1 hrn1
  unfold StabilizeStep
  rw [hcu]
  show CheckConditions s i = _
  unfold CheckConditions
  rw [hld]
  show (match s[i]? with
    | none => none
    | some nd =>
      match Max (s.set i nd.Update) i with
      | none => none
      | some mx =>
        some ((s.set i nd.Update).set i
          { nd.Update with secondary := nd.Update.secondary + (mx + M) })) = _
  rw [hnd]
  show (match Max (s.set i nd.Update) i with
    | none => none
    | some mx =>
      some ((s.set i nd.Update).set i
        { nd.Update with secondary := nd.Update.secondary + (mx + M) })) = _
  rw [hmax]
  show some ((s.set i nd.Update).set i
      { nd.Update with secondary := nd.Update.secondary + (max ln.secondary rn.secondary + M) }) = _
  rw [List.set_set, Node.Update_secondary]

/-- Witness for C1 (amended): the N = 4 scenario with primaries [0,0,1,1] and
all secondaries 5; one iteration at node 1 flips its primary to 1 and sets its
secondary to 5 + (5 + 20) = 30. -/
theorem C1_witness :
    StabilizeStep exState4 1 =
      some [{ primary := 0, secondary := 5, left := none, right := some 1 },
            { primary := 1, secondary := 30, left := some 0, right := some 2 },
            { primary := 1, secondary := 5, left := some 1, right := some 3 },
            { primary := 1, secondary := 5, left := some 2, right := none }] := by
  have hnd : exState4[1]? =
      some { primary := 0, secondary := 5, left := some 0, right := some 2 } := by decide
  have hln : exState4[0]? =
      some { primary := 0, secondary := 5, left := none, right := some 1 } := by decide
  have hrn : exState4[2]? =
      some { primary := 1, secondary := 5, left := some 1, right := some 3 } := by decide
  rw [C1_theorem hnd rfl rfl (by decide) (by decide) hln hrn
      (Or.inl (by decide)) (by decide) (by decide)]
  decide

/-- C1 counterexample: in the N = 4 scenario of the claim (primaries
[0,0,1,1], all secondaries 5, node 1 selected, node 1 the local leader), the
resulting secondary of node 1 is 30, not max(5,5) + 20 = 25 as stated: the
code executes `node->secondary += (Max() + M)`, adding `max + M` to the old
secondary rather than assigning `max + M`. -/
theorem C1_counterexample :
    ((StabilizeStep exState4 1).bind fun t => (t[1]?).map Node.secondary) = some 30 ∧
    ¬ ((StabilizeStep exState4 1).bind fun t => (t[1]?).map Node.secondary) = some 25 ∧
    ((StabilizeStep exState4 1).bind fun t => (t[1]?).map Node.primary) = some 1 := by
  refine ⟨by decide, by decide, by decide⟩

/-- C7: in the mixed case with the selected node not the local leader, one
stabilization iteration leaves the node primary (and its pointers) unchanged,
increments the node secondary by exactly 1, and leaves every other node
untouched. -/
theorem C7_theorem {s : List Node} {i l r : Nat} {nd ln rn : Node}
    (hnd : s[i]? = some nd) (hl : nd.left = some l) (hr : nd.right = some r)
    (hln : s[l]? = some ln) (hrn : s[r]? = some rn)
    (hmix : (nd.primary = ln.primary ∧ nd.primary ≠ rn.primary) ∨
            (nd.primary ≠ ln.primary ∧ nd.primary = rn.primary))
    (hnl : nd.secondary < ln.secondary ∨ nd.secondary < rn.secondary) :
    StabilizeStep s i = some (s.set i { nd with secondary := nd.secondary + 1 }) ∧
    (s.set i { nd with secondary := nd.secondary + 1 })[i]? =
      some { nd with secondary := nd.secondary + 1 } ∧
    ∀ j, j ≠ i → (s.set i { nd with secondary := nd.secondary + 1 })[j]? = s[j]? := by
  have hcu := CheckUnequal_mixed hnd hl hr hln hrn hmix
  have hld := isLeader_two_false hnd hl hr hln hrn hnl
  refine ⟨?_, List.getElem?_set_eq_of_lt _ (idx_lt_of_getElem? hnd),
    fun j hj => List.getElem?_set_ne (Ne.symm hj)⟩
  unfold StabilizeStep
  rw [hcu]
  show CheckConditions s i = _
  unfold CheckConditions
  rw [hld]
  show (match s[i]? with
    | none => none
    | some nd => some (s.set i { nd with secondary := nd.secondary + 1 })) = _
  rw [hnd]

/-- Concrete three-node mixed-case state where node 1 is not the local leader:
primaries `[0, 0, 1]`, secondaries `[9, 5, 9]`. -/
def exMixed3 : List Node :=
  [{ primary := 0, secondary := 9, left := none, right := some 1 },
   { primary := 0, secondary := 5, left := some 0, right := some 2 },
   { primary := 1, secondary := 9, left := some 1, right := none }]

/-- Witness for C7: in `exMixed3`, node 1 (mixed case, not leader) keeps its
primary and gains 1 on its secondary; the other nodes are untouched. -/
theorem C7_witness :
    StabilizeStep exMixed3 1 =
      some [{ primary := 0, secondary := 9, left := none, right := some 1 },
            { primary := 0, secondary := 6, left := some 0, right := some 2 },
            { primary := 1, secondary := 9, left := some 1, right := none }] := by
  have hnd : exMixed3[1]? =
      some { primary := 0, secondary := 5, left := some 0, right := some 2 } := by decide
  have hln : exMixed3[0]? =
      some { primary := 0, secondary := 9, left := none, right := some 1 } := by decide
  have hrn : exMixed3[2]? =
      some { primary := 1, secondary := 9, left := some 1, right := none } := by decide
  rw [(C7_theorem hnd rfl rfl hln hrn (Or.inl (by decide)) (Or.inl (by decide))).1]
  decide

/-- C8: fault injection at the scheduled node flips only that node primary:
the secondary and the neighbor pointers of the selected node are unchanged,
the primary is flipped between 0 and 1, and every other node is untouched. -/
theorem C8_theorem {s : List Node} {i : Nat} {nd : Node} (hnd : s[i]? = some nd) :
    TransientFault s i = some (s.set i nd.Update) ∧
    (s.set i nd.Update)[i]? = some nd.Update ∧
    nd.Update.secondary = nd.secondary ∧
    nd.Update.left = nd.left ∧ nd.Update.right = nd.right ∧
    nd.Update.primary = (if nd.primary = 0 then 1 else 0) ∧
    ∀ j, j ≠ i → (s.set i nd.Update)[j]? = s[j]? := by
  refine ⟨?_, List.getElem?_set_eq_of_lt _ (idx_lt_of_getElem? hnd),
    Node.Update_secondary nd, Node.Update_left nd, Node.Update_right nd,
    Node.Update_primary nd, fun j hj => List.getElem?_set_ne (Ne.symm hj)⟩
  unfold TransientFault
  rw [hnd]

/-- Witness for C8: a fault at node 0 of a fresh two-node system flips only
that primary. -/
theorem C8_witness :
    TransientFault (mkSystem 2) 0 =
      some [{ primary := 1, secondary := 5, left := none, right := some 1 },
            { primary := 0, secondary := 5, left := some 0, right := none }] := by
  have hnd : (mkSystem 2)[0]? =
      some { primary := 0, secondary := 5, left := none, right := some 1 } := by decide
  rw [(C8_theorem hnd).1]
  decide

theorem StabilizeStep_of_fst_true {s : List Node} {i : Nat}
    (h : (CheckUnequal s i).map Prod.fst = some true) :
    StabilizeStep s i = (CheckUnequal s i).map Prod.snd := by
  unfold StabilizeStep
  cases hcu : CheckUnequal s i with
  | none => rw [hcu] at h; cases h
  | some p =>
    obtain ⟨b, s1⟩ := p
    rw [hcu] at h
    have hb : b = true := by
      simpa using h
    subst hb
    simp

/-- C9: a node with exactly one existing (valid) neighbor never reaches the
mixed-case leader arbitration: `CheckUnequal` always returns true on it
(all-agree or all-disagree against the sole neighbor), so the stabilization
iteration never calls `CheckConditions` from such a selection. -/
theorem C9_theorem {s : List Node} {i : Nat} {nd : Node} (hnd : s[i]? = some nd)
    (h : (∃ r rn, nd.left = none ∧ nd.right = some r ∧ s[r]? = some rn) ∨
         (∃ l ln, nd.right = none ∧ nd.left = some l ∧ s[l]? = some ln)) :
    (CheckUnequal s i).map Prod.fst = some true ∧
    StabilizeStep s i = (CheckUnequal s i).map Prod.snd := by
  have hfst : (CheckUnequal s i).map Prod.fst = some true := by
    rcases h with ⟨r, rn, hl, hr, hrn⟩ | ⟨l, ln, hr, hl, hln⟩
    · by_cases hp : nd.primary = rn.primary <;>
        simp [CheckUnequal, deref, hnd, hl, hr, hrn, hp]
    · by_cases hp : nd.primary = ln.primary <;>
        simp [CheckUnequal, deref, hnd, hl, hr, hln, hp]
  exact ⟨hfst, StabilizeStep_of_fst_true hfst⟩

/-- Concrete two-node state with primaries `[1, 0]`: both nodes are endpoints
with a single neighbor. -/
def exEndpoint2 : List Node :=
  [{ primary := 1, secondary := 5, left := none, right := some 1 },
   { primary := 0, secondary := 5, left := some 0, right := none }]

/-- Witness for C9: endpoint node 0 of `exEndpoint2` (single right neighbor,
disagreeing) is classified by `CheckUnequal` as true, bypassing
`CheckConditions`. -/
theorem C9_witness :
    (CheckUnequal exEndpoint2 0).map Prod.fst = some true ∧
    StabilizeStep exEndpoint2 0 = (CheckUnequal exEndpoint2 0).map Prod.snd := by
  have hnd : exEndpoint2[0]? =
      some { primary := 1, secondary := 5, left := none, right := some 1 } := by decide
  exact C9_theorem hnd
    (Or.inl ⟨1, { primary := 0, secondary := 5, left := some 0, right := none },
      rfl, rfl, by decide⟩)

/-! Inversion and frame lemmas for the state-changing operations, used for the
secondary-monotonicity invariant. -/

theorem deref_some {s : List Node} {p : Option Nat} {c : Node}
    (h : deref s p = some c) : ∃ k, p = some k ∧ s[k]? = some c := by
  cases p with
  | none => cases h
  | some k => exact ⟨k, rfl, h⟩

theorem TransientFault_some {s : List Node} {i : Nat} {t : List Node}
    (h : TransientFault s i = some t) :
    ∃ nd, s[i]? = some nd ∧ t = s.set i nd.Update := by
  unfold TransientFault at h
  cases hnd : s[i]? with
  | none => rw [hnd] at h; cases h
  | some nd =>
    rw [hnd] at h
    injection h with h2
    exact ⟨nd, rfl, h2.symm⟩

theorem CheckUnequal_state {s : List Node} {i : Nat} {b : Bool} {s1 : List Node}
    (h : CheckUnequal s i = some (b, s1)) :
    s1 = s ∨ ∃ nd, s[i]? = some nd ∧ s1 = s.set i nd.Update := by
  cases hnd : s[i]? with
  | none =>
    simp only [CheckUnequal, hnd] at h
    exact absurd h (by simp)
  | some nd =>
    simp only [CheckUnequal, hnd] at h
    repeat' split at h
    all_goals
      first
        | exact Option.noConfusion h
        | (injection h with h2; injection h2 with hb hs;
           first
             | exact Or.inl hs.symm
             | exact Or.inr ⟨nd, rfl, hs.symm⟩)

theorem CheckUnequal_sec {s : List Node} {i : Nat} {b : Bool} {s1 : List Node}
    (h : CheckUnequal s i = some (b, s1)) (j : Nat) :
    (s1[j]?).map Node.secondary = (s[j]?).map Node.secondary := by
  rcases CheckUnequal_state h with rfl | ⟨nd, hnd, rfl⟩
  · rfl
  · exact getElem?_set_update_sec hnd j

theorem CheckUnequal_length {s : List Node} {i : Nat} {b : Bool} {s1 : List Node}
    (h : CheckUnequal s i = some (b, s1)) : s1.length = s.length := by
  rcases CheckUnequal_state h with rfl | ⟨nd, hnd, rfl⟩
  · rfl
  · simp

theorem sec_transfer {s t : List Node}
    (hsec : ∀ j : Nat, (t[j]?).map Node.secondary = (s[j]?).map Node.secondary)
    {j : Nat} {a : Node} (ha : s[j]? = some a) :
    ∃ a1, t[j]? = some a1 ∧ a1.secondary = a.secondary := by
  have h := hsec j
  rw [ha] at h
  cases htj : t[j]? with
  | none => rw [htj] at h; cases h
  | some a1 =>
    rw [htj] at h
    exact ⟨a1, rfl, by simpa using h⟩

theorem Max_lb {s : List Node} {i : Nat} {mx lb : Int}
    (hlb : ∀ (j : Nat) (a : Node), s[j]? = some a → lb ≤ a.secondary)
    (h : Max s i = some mx) : lb ≤ mx := by
  cases hnd : s[i]? with
  | none =>
    simp only [Max, hnd] at h
    exact Option.noConfusion h
  | some nd =>
    simp only [Max, hnd] at h
    split at h
    · cases hd : deref s nd.right with
      | none => rw [hd] at h; exact Option.noConfusion h
      | some c =>
        rw [hd] at h
        obtain ⟨k, _, hkc⟩ := deref_some hd
        have hc : c.secondary = mx := by simpa using h
        exact hc ▸ hlb k c hkc
    · split at h
      · cases hd : deref s nd.left with
        | none => rw [hd] at h; exact Option.noConfusion h
        | some c =>
          rw [hd] at h
          obtain ⟨k, _, hkc⟩ := deref_some hd
          have hc : c.secondary = mx := by simpa using h
          exact hc ▸ hlb k c hkc
      · cases hdl : deref s nd.left with
        | none =>
          simp only [hdl] at h
          exact Option.noConfusion h
        | some ln =>
          cases hdr : deref s nd.right with
          | none =>
            simp only [hdl, hdr] at h
            exact Option.noConfusion h
          | some rn =>
            simp only [hdl, hdr] at h
            obtain ⟨k1, _, hk1⟩ := deref_some hdl
            obtain ⟨k2, _, hk2⟩ := deref_some hdr
            split at h
            · have hc : rn.secondary = mx := by injection h
              exact hc ▸ hlb k2 rn hk2
            · have hc : ln.secondary = mx := by injection h
              exact hc ▸ hlb k1 ln hk1

theorem CheckConditions_sec {s : List Node} {i : Nat} {t : List Node}
    (hlb : ∀ (j : Nat) (a : Node), s[j]? = some a → (0:Int) ≤ a.secondary)
    (h : CheckConditions s i = some t) :
    t.length = s.length ∧
    ∀ (j : Nat) (a b : Node), s[j]? = some a → t[j]? = some b → a.secondary ≤ b.secondary := by
  cases hld : isLeader s i with
  | none =>
    simp only [CheckConditions, hld] at h
    exact Option.noConfusion h
  | some v =>
    cases v with
    | true =>
      cases hnd : s[i]? with
      | none =>
        simp only [CheckConditions, hld, hnd] at h
        exact Option.noConfusion h
      | some nd =>
        simp only [CheckConditions, hld, hnd] at h
        cases hmx : Max (s.set i nd.Update) i with
        | none =>
          simp only [hmx] at h
          exact Option.noConfusion h
        | some mx =>
          simp only [hmx] at h
          injection h with h2
          rw [List.set_set] at h2
          subst h2
          have hlb1 : ∀ (j : Nat) (a : Node),
              (s.set i nd.Update)[j]? = some a → (0:Int) ≤ a.secondary := by
            intro j a ha
            have hj := getElem?_set_update_sec hnd j
            rw [ha] at hj
            cases hsj : s[j]? with
            | none => rw [hsj] at hj; cases hj
            | some c =>
              rw [hsj] at hj
              have hac : a.secondary = c.secondary := by simpa using hj
              rw [hac]
              exact hlb j c hsj
          have hmx0 : (0:Int) ≤ mx := Max_lb hlb1 hmx
          refine ⟨by simp, fun j a b ha hb => ?_⟩
          by_cases hij : i = j
          · subst hij
            rw [List.getElem?_set_eq_of_lt _ (idx_lt_of_getElem? hnd)] at hb
            rw [hnd] at ha
            injection ha with ha2
            injection hb with hb2
            subst ha2
            rw [← hb2]
            show nd.secondary ≤ nd.Update.secondary + (mx + M)
            rw [Node.Update_secondary, show M = 20 from rfl]
            omega
          · rw [List.getElem?_set_ne hij] at hb
            rw [ha] at hb
            injection hb with hb2
            exact le_of_eq (congrArg Node.secondary hb2)
    | false =>
      cases hnd : s[i]? with
      | none =>
        simp only [CheckConditions, hld, hnd] at h
        exact Option.noConfusion h
      | some nd =>
        simp only [CheckConditions, hld, hnd] at h
        injection h with h2
        subst h2
        refine ⟨by simp, fun j a b ha hb => ?_⟩
        by_cases hij : i = j
        · subst hij
          rw [List.getElem?_set_eq_of_lt _ (idx_lt_of_getElem? hnd)] at hb
          rw [hnd] at ha
          injection ha with ha2
          injection hb with hb2
          subst ha2
          rw [← hb2]
          simp
        · rw [List.getElem?_set_ne hij] at hb
          rw [ha] at hb
          injection hb with hb2
          rw [hb2]

theorem TransientFault_sec {s : List Node} {i : Nat} {t : List Node}
    (h : TransientFault s i = some t) :
    t.length = s.length ∧
    ∀ j : Nat, (t[j]?).map Node.secondary = (s[j]?).map Node.secondary := by
  obtain ⟨nd, hnd, rfl⟩ := TransientFault_some h
  exact ⟨by simp, getElem?_set_update_sec hnd⟩

theorem StabilizeStep_sec {s : List Node} {i : Nat} {t : List Node}
    (hlb : ∀ (j : Nat) (a : Node), s[j]? = some a → (0:Int) ≤ a.secondary)
    (h : StabilizeStep s i = some t) :
    t.length = s.length ∧
    ∀ (j : Nat) (a b : Node), s[j]? = some a → t[j]? = some b → a.secondary ≤ b.secondary := by
  cases hcu : CheckUnequal s i with
  | none =>
    simp only [StabilizeStep, hcu] at h
    exact Option.noConfusion h
  | some p =>
    obtain ⟨bb, s1⟩ := p
    simp only [StabilizeStep, hcu] at h
    have hsec := CheckUnequal_sec hcu
    have hlen1 := CheckUnequal_length hcu
    cases bb with
    | true =>
      rw [if_pos rfl] at h
      injection h with h2
      subst h2
      refine ⟨hlen1, fun j a b ha hb => ?_⟩
      obtain ⟨a1, ht1, he1⟩ := sec_transfer hsec ha
      rw [ht1] at hb
      injection hb with hb2
      rw [← hb2, he1]
    | false =>
      rw [if_neg (by simp)] at h
      have hlb1 : ∀ (j : Nat) (a : Node), s1[j]? = some a → (0:Int) ≤ a.secondary := by
        intro j a ha
        have hj := hsec j
        rw [ha] at hj
        cases hsj : s[j]? with
        | none => rw [hsj] at hj; exact Option.noConfusion hj
        | some c =>
          rw [hsj] at hj
          have hac : a.secondary = c.secondary := by simpa using hj
          rw [hac]
          exact hlb j c hsj
      obtain ⟨hlen2, hmono⟩ := CheckConditions_sec hlb1 h
      refine ⟨hlen2.trans hlen1, fun j a b ha hb => ?_⟩
      obtain ⟨a1, ht1, he1⟩ := sec_transfer hsec ha
      calc a.secondary = a1.secondary := he1.symm
        _ ≤ b.secondary := hmono j a1 b ht1 hb

theorem Step_sec {s t : List Node}
    (hlb : ∀ (j : Nat) (a : Node), s[j]? = some a → (0:Int) ≤ a.secondary)
    (hst : Step s t) :
    t.length = s.length ∧
    ∀ (j : Nat) (a b : Node), s[j]? = some a → t[j]? = some b → a.secondary ≤ b.secondary := by
  cases hst with
  | fault i hf =>
    obtain ⟨hlen, hsec⟩ := TransientFault_sec hf
    refine ⟨hlen, fun j a b ha hb => ?_⟩
    obtain ⟨a1, ht1, he1⟩ := sec_transfer hsec ha
    rw [ht1] at hb
    injection hb with hb2
    rw [← hb2, he1]
  | stab i hleg hss => exact StabilizeStep_sec hlb hss

theorem mkSystem_length (n : Nat) : (mkSystem n).length = n := by
  simp [mkSystem]

theorem mkSystem_sec (n : Nat) :
    ∀ (j : Nat) (a : Node), (mkSystem n)[j]? = some a → a.secondary = 5 := by
  intro j a ha
  unfold mkSystem at ha
  rw [List.getElem?_map] at ha
  cases hr : (List.range n)[j]? with
  | none => rw [hr] at ha; exact Option.noConfusion ha
  | some v =>
    rw [hr] at ha
    have hv : mkNode n v = a := by simpa using ha
    rw [← hv]
    unfold mkNode Node.init
    split
    · rfl
    · split <;> rfl

/-- Combined structural invariant of reachable states: the node count equals
the constructed size and every secondary is at least the baseline 5. -/
theorem Reachable_inv {n : Nat} {s : List Node} (h : Reachable n s) :
    s.length = n ∧ ∀ (j : Nat) (a : Node), s[j]? = some a → (5:Int) ≤ a.secondary := by
  induction h with
  | init =>
    exact ⟨mkSystem_length n, fun j a ha => le_of_eq (mkSystem_sec n j a ha).symm⟩
  | step s t hr hst ih =>
    obtain ⟨ihlen, ihsec⟩ := ih
    have hlb : ∀ (j : Nat) (a : Node), s[j]? = some a → (0:Int) ≤ a.secondary :=
      fun j a ha => le_trans (by norm_num) (ihsec j a ha)
    obtain ⟨hlen, hmono⟩ := Step_sec hlb hst
    refine ⟨hlen.trans ihlen, fun j b hb => ?_⟩
    have hj : j < s.length := by
      have := idx_lt_of_getElem? hb
      omega
    have ha : s[j]? = some (s.get ⟨j, hj⟩) := List.getElem?_eq_getElem hj
    exact le_trans (ihsec j _ ha) (hmono j _ b ha hb)

/-- C6: along any run of the system — construction, then any interleaving of
transient faults and stabilization-loop iterations — no operation ever
decreases any node secondary: across every single step from a reachable
state, each node secondary is monotonically non-decreasing (the convergence
check is a pure function of the state and changes nothing). -/
theorem C6_theorem (n : Nat) (s t : List Node) (h : Reachable n s) (hst : Step s t)
    (j : Nat) (a b : Node) (ha : s[j]? = some a) (hb : t[j]? = some b) :
    a.secondary ≤ b.secondary :=
  (Step_sec (fun k c hc => le_trans (by norm_num) ((Reachable_inv h).2 k c hc)) hst).2
    j a b ha hb

/-- Witness for C6: a transient fault on the fresh one-node system leaves the
secondary of node 0 unchanged (5 ≤ 5). -/
theorem C6_witness :
    Node.secondary { primary := 0, secondary := 5, left := none, right := some 1 } ≤
    Node.secondary { primary := 1, secondary := 5, left := none, right := some 1 } := by
  have hf : TransientFault (mkSystem 1) 0 =
      some [{ primary := 1, secondary := 5, left := none, right := some 1 }] := by decide
  exact C6_theorem 1 (mkSystem 1)
    [{ primary := 1, secondary := 5, left := none, right := some 1 }]
    Reachable.init (Step.fault _ _ 0 hf) 0
    { primary := 0, secondary := 5, left := none, right := some 1 }
    { primary := 1, secondary := 5, left := none, right := some 1 }
    (by decide) (by decide)

/-- C10: in a one-node system every reachable state — including after any
sequence of fault injections — satisfies the convergence check, so the
stabilization loop exits immediately with zero iterations on every schedule;
consequently `CheckUnequal` (whose classification has no branch for a node
with neither neighbor) is never invoked from the loop on the neighbor-less
node. -/
theorem C10_theorem (s : List Node) (h : Reachable 1 s) :
    LegalConfig s = true ∧ ∀ sched : List Nat, StabilizeRun s sched = some (s, 0) := by
  have hlen : s.length = 1 := (Reachable_inv h).1
  have hleg : LegalConfig s = true := by
    cases s with
    | nil => simp at hlen
    | cons a tl =>
      cases tl with
      | nil => rfl
      | cons b u => simp at hlen
  refine ⟨hleg, fun sched => ?_⟩
  cases sched with
  | nil => simp [StabilizeRun, hleg]
  | cons i rest => simp [StabilizeRun, hleg]

/-- Witness for C10: the freshly constructed one-node system is legal and a
run against the singleton schedule `[0]` stops at once with zero iterations. -/
theorem C10_witness :
    LegalConfig (mkSystem 1) = true ∧
    StabilizeRun (mkSystem 1) [0] = some (mkSystem 1, 0) :=
  ⟨(C10_theorem (mkSystem 1) Reachable.init).1,
   (C10_theorem (mkSystem 1) Reachable.init).2 [0]⟩

end Stabilization
